import Mathlib

/-!
Verification of the behaviour of `src/main.py` of
`dso-database-table-def-anonymizer`.

The program reads a text file, runs one case-insensitive regular-expression
substitution pass with a counter-based replacement callback
(`re.sub(column_name_pattern, replace_column_name, table_definition,
flags=re.IGNORECASE)`), and writes the result to an output file.

The substitution engine is embedded for the literal fragment of the pattern
language: a compiled pattern is a list of characters matched
case-insensitively, and `re_sub` is the standard left-to-right
non-overlapping replacement scan of `re.sub` (including the empty-pattern
behaviour of matching at every position, and at the very end, of the text).

External facilities the program calls (`chardet.detect`, the codec registry
consulted by `open(..., encoding=...)`, `re.compile`, the file system) are
parameters of the orchestration model `coreRun` /
`anonymize_table_definition`; codecs are modelled byte-wise (a multi-byte
sequence is abstracted as one unit).
-/

/-- ASCII lower-casing, modelling the case folding performed by
`str.lower()` and by `re.IGNORECASE`, restricted to the ASCII range. -/
def toLowerAscii (c : Char) : Char :=
  if 'A' ≤ c ∧ c ≤ 'Z' then Char.ofNat (c.toNat + 32) else c

/-- `encoding.lower()` (line 61 of `src/main.py`). -/
def strToLower (s : String) : String :=
  String.mk (s.data.map toLowerAscii)

/-- Case-insensitive test that the text starts with the literal pattern. -/
def ciStartsWith (p t : List Char) : Bool :=
  (p.map toLowerAscii).isPrefixOf (t.map toLowerAscii)

/-- Decimal rendering of the counter, as produced by the f-string
`f"..."` interpolation of a Python `int`. -/
def decimalStr (n : Nat) : List Char :=
  Nat.toDigits 10 n

/-- The replacement callback `replace_column_name` (lines 76-80): builds
the replacement text for one match and increments the counter
(`column_count += 1`). The match argument is unused by the source code, so
it does not appear here. -/
def replace_column_name (columnPref : List Char) (column_count : Nat) :
    List Char × Nat :=
  (columnPref ++ decimalStr column_count, column_count + 1)

/-- `re.sub(p, replace_column_name, t, flags=re.IGNORECASE)` (line 82) for a
literal pattern `p`: the left-to-right non-overlapping scan, replacing each
match with the callback result and threading the counter.  Returns the
substituted text together with the final counter value.  An empty pattern
matches at every position and at the end of the text, as in Python. -/
def re_sub (p columnPref : List Char) (column_count : Nat) (t : List Char) :
    List Char × Nat :=
  match t with
  | [] =>
    if p = [] then
      ((replace_column_name columnPref column_count).1,
        (replace_column_name columnPref column_count).2)
    else ([], column_count)
  | ch :: rest =>
    if p = [] then
      let r := replace_column_name columnPref column_count
      let s := re_sub p columnPref r.2 rest
      (r.1 ++ ch :: s.1, s.2)
    else if ciStartsWith p (ch :: rest) then
      let r := replace_column_name columnPref column_count
      let s := re_sub p columnPref r.2 (List.drop (p.length - 1) rest)
      (r.1 ++ s.1, s.2)
    else
      let s := re_sub p columnPref column_count rest
      (ch :: s.1, s.2)
termination_by t.length
decreasing_by
  all_goals simp only [List.length_cons, List.length_drop]
  all_goals omega

/-- Gap list of the left-to-right non-overlapping case-insensitive match
scan for a nonempty literal pattern: an entry `g` means `g` unmatched
characters are passed through unchanged, then one match of length
`p.length` occurs, and scanning resumes right after the matched span. -/
def matchGaps (p : List Char) (t : List Char) : List Nat :=
  match t with
  | [] => []
  | ch :: rest =>
    if p ≠ [] ∧ ciStartsWith p (ch :: rest) then
      0 :: matchGaps p (List.drop (p.length - 1) rest)
    else
      match matchGaps p rest with
      | [] => []
      | g :: gs => (g + 1) :: gs
termination_by t.length
decreasing_by
  all_goals simp only [List.length_cons, List.length_drop]
  all_goals omega

/-- Declarative rendering of the substitution output from a gap list: for
the gap `g` of the kth match, `g` untouched characters are copied, then
`columnPref ++ decimalStr c` replaces the matched span of length
`p.length`, and the counter moves to `c + 1`. -/
def render (p columnPref : List Char) (c : Nat) (t : List Char) :
    List Nat → List Char
  | [] => t
  | g :: gs =>
    t.take g ++ columnPref ++ decimalStr c ++
      render p columnPref (c + 1) (t.drop (g + p.length)) gs

/-- `seg` occurs verbatim as one contiguous segment of `out`. -/
def containsSeg (seg out : List Char) : Prop :=
  ∃ l r, out = l ++ seg ++ r

/-- A character codec: byte-wise model of decoding and encoding under one
named encoding. -/
structure Codec where
  decodeByte : Nat → Option Char
  encodeChar : Char → Option Nat

/-- The external facilities called by `anonymize_table_definition`:
`chardet.detect` (the `encoding` field of its result), the codec registry
consulted by `open(..., encoding=...)` (`none` models `LookupError` for an
unknown encoding name), `re.compile` returning the literal denotation of a
valid pattern (`none` models `re.error`), and whether a path can be opened
for writing. -/
structure Env where
  detect : List Nat → Option String
  codecs : String → Option Codec
  compile : String → Option (List Char)
  writable : String → Bool

/-- The failure modes of one run, before they reach the `except` handlers
of lines 90-104. -/
inductive Err where
  | fileNotFound
  | detectFailed
  | unknownEncoding
  | badPattern
  | writeDenied
  | encodeFailed
deriving DecidableEq

/-- Log messages, abstracted to their category and payload. -/
inductive LogMsg where
  | detectedEncoding : Option String → LogMsg
  | written : String → LogMsg
  | errFileNotFound : String → LogMsg
  | errIO : LogMsg
  | errRegex : LogMsg
  | errValue : LogMsg
  | errUnexpected : LogMsg
deriving DecidableEq

/-- U+FFFD, the replacement character substituted by `errors='replace'`. -/
def replacementChar : Char := Char.ofNat 0xFFFD

/-- Lossy-safe decoding (line 71, `errors='replace'`): every undecodable
byte becomes the replacement character, so decoding is total and never
fails. -/
def decodeReplace (c : Codec) (bs : List Nat) : List Char :=
  bs.map (fun b => (c.decodeByte b).getD replacementChar)

/-- Strict encoding of the output text; `none` models a
`UnicodeEncodeError` raised while writing. -/
def encodeAll (c : Codec) : List Char → Option (List Nat)
  | [] => some []
  | ch :: rest =>
    match c.encodeChar ch, encodeAll c rest with
    | some b, some bs => some (b :: bs)
    | _, _ => none

/-- Point update of the file store, modelling `open(path, "w")` followed by
a write of `v`. -/
def fsUpdate (fs : String → Option (List Nat)) (path : String)
    (v : List Nat) : String → Option (List Nat) :=
  fun q => if q = path then some v else fs q

/-- Outcome of encoding resolution (lines 61-68). -/
structure ResolveOut where
  enc : Except Err String
  logs : List LogMsg

/-- Lines 61-68: if the selector lower-cases to `auto`, open the input file
(raising `FileNotFoundError` if absent), run `chardet.detect` on its raw
bytes, log the detected value (the source logs before the `None` check, so
a null detection is logged too), and raise `ValueError` when it is null;
otherwise the selector is used as-is, unvalidated. -/
def resolveEncoding (env : Env) (fs : String → Option (List Nat))
    (input_file encoding : String) : ResolveOut :=
  if strToLower encoding = "auto" then
    match fs input_file with
    | none => ⟨Except.error Err.fileNotFound, []⟩
    | some bs =>
      match env.detect bs with
      | none => ⟨Except.error Err.detectFailed, [LogMsg.detectedEncoding none]⟩
      | some e => ⟨Except.ok e, [LogMsg.detectedEncoding (some e)]⟩
  else ⟨Except.ok encoding, []⟩

/-- Result of the body of the `try` block (lines 59-88). -/
structure CoreOut where
  err : Option Err
  resolved : Option String
  textRead : Option (List Char)
  fs : String → Option (List Nat)
  logs : List LogMsg

/-- The `try`-block body (lines 59-88): resolve the encoding, read the
input file and decode it lossily, run the substitution pass, and only then
open the output file and write the encoded result.  The resolved encoding
is used both for reading and for writing. -/
def coreRun (env : Env) (fs : String → Option (List Nat))
    (input_file output_file column_name_pattern columnPref encoding :
      String) : CoreOut :=
  match resolveEncoding env fs input_file encoding with
  | ⟨Except.error e, logs⟩ => ⟨some e, none, none, fs, logs⟩
  | ⟨Except.ok rEnc, logs⟩ =>
    match fs input_file with
    | none => ⟨some Err.fileNotFound, some rEnc, none, fs, logs⟩
    | some bs =>
      match env.codecs rEnc with
      | none => ⟨some Err.unknownEncoding, some rEnc, none, fs, logs⟩
      | some codec =>
        match env.compile column_name_pattern with
        | none =>
          ⟨some Err.badPattern, some rEnc, some (decodeReplace codec bs),
            fs, logs⟩
        | some p =>
          if env.writable output_file then
            match encodeAll codec
                (re_sub p columnPref.data 1 (decodeReplace codec bs)).1 with
            | some outBs =>
              ⟨none, some rEnc, some (decodeReplace codec bs),
                fsUpdate fs output_file outBs, logs⟩
            | none =>
              ⟨some Err.encodeFailed, some rEnc, some (decodeReplace codec bs),
                fsUpdate fs output_file [], logs⟩
          else
            ⟨some Err.writeDenied, some rEnc, some (decodeReplace codec bs),
              fs, logs⟩

/-- The handler clauses of lines 90-104: each failure category is logged
with its own message category.  `detectFailed` and `encodeFailed` are
`ValueError`s (a `UnicodeEncodeError` is a `ValueError`), an unknown
encoding name is a `LookupError` caught by the generic `except Exception`
clause, and a failure to open the output file is an `IOError`. -/
def errLog (input_file : String) : Err → LogMsg
  | Err.fileNotFound => LogMsg.errFileNotFound input_file
  | Err.detectFailed => LogMsg.errValue
  | Err.unknownEncoding => LogMsg.errUnexpected
  | Err.badPattern => LogMsg.errRegex
  | Err.writeDenied => LogMsg.errIO
  | Err.encodeFailed => LogMsg.errValue

/-- Result of one whole run of `anonymize_table_definition`: the process
exit status, the log stream, and the final file store. -/
structure RunResult where
  exitCode : Nat
  logs : List LogMsg
  fs : String → Option (List Nat)

/-- `anonymize_table_definition` (lines 47-104): run the `try` body; on
success log the success message and return normally (the process later
exits with status 0), and on any caught failure log its category and call
`sys.exit(1)`. -/
def anonymize_table_definition (env : Env)
    (fs : String → Option (List Nat))
    (input_file output_file column_name_pattern columnPref encoding :
      String) : RunResult :=
  let c := coreRun env fs input_file output_file column_name_pattern
    columnPref encoding
  match c.err with
  | none => ⟨0, c.logs ++ [LogMsg.written output_file], c.fs⟩
  | some e => ⟨1, c.logs ++ [errLog input_file e], c.fs⟩

/-- Empty file store used by concrete witnesses. -/
def emptyFs : String → Option (List Nat) := fun _ => none

/-- ASCII codec used by concrete witnesses: bytes below 128 decode to the
corresponding character, characters below 128 encode to their code. -/
def asciiCodec : Codec :=
  ⟨fun b => if b < 128 then some (Char.ofNat b) else none,
    fun ch => if ch.toNat < 128 then some ch.toNat else none⟩

/-- Sample environment used by concrete witnesses. -/
def sampleEnv : Env :=
  ⟨fun _ => some "latin-1", fun _ => some asciiCodec,
    fun s => some s.data, fun _ => true⟩

/-- Sample file store holding the two ASCII bytes of `ab`. -/
def sampleFs : String → Option (List Nat) :=
  fun q => if q = "in.sql" then some [97, 98] else none

/-- Sample file store holding one ASCII byte and one non-ASCII byte. -/
def sampleFs2 : String → Option (List Nat) :=
  fun q => if q = "in.sql" then some [97, 200] else none

theorem re_sub_nil (p pref : List Char) (c : Nat) (hp : p ≠ []) :
    re_sub p pref c [] = ([], c) := by
  rw [re_sub]; simp [hp]

theorem re_sub_match (p pref : List Char) (c : Nat) (ch : Char)
    (rest : List Char) (hp : p ≠ []) (hm : ciStartsWith p (ch :: rest)) :
    re_sub p pref c (ch :: rest) =
      (pref ++ decimalStr c ++
        (re_sub p pref (c + 1) (List.drop (p.length - 1) rest)).1,
       (re_sub p pref (c + 1) (List.drop (p.length - 1) rest)).2) := by
  rw [re_sub]
  simp [hp, hm, replace_column_name]

theorem re_sub_skip (p pref : List Char) (c : Nat) (ch : Char)
    (rest : List Char) (hp : p ≠ []) (hm : ¬ ciStartsWith p (ch :: rest)) :
    re_sub p pref c (ch :: rest) =
      ((ch :: (re_sub p pref c rest).1), (re_sub p pref c rest).2) := by
  rw [re_sub]
  simp [hp, hm]

theorem matchGaps_nil (p : List Char) : matchGaps p [] = [] := by
  rw [matchGaps]

theorem matchGaps_match (p : List Char) (ch : Char) (rest : List Char)
    (hp : p ≠ []) (hm : ciStartsWith p (ch :: rest)) :
    matchGaps p (ch :: rest) =
      0 :: matchGaps p (List.drop (p.length - 1) rest) := by
  rw [matchGaps]
  simp [hp, hm]

theorem matchGaps_skip (p : List Char) (ch : Char) (rest : List Char)
    (hm : ¬ ciStartsWith p (ch :: rest)) :
    matchGaps p (ch :: rest) =
      match matchGaps p rest with
      | [] => []
      | g :: gs => (g + 1) :: gs := by
  rw [matchGaps]
  simp [hm]

theorem matchGaps_else (p : List Char) (ch : Char) (rest : List Char)
    (hm : ¬ (p ≠ [] ∧ ciStartsWith p (ch :: rest))) :
    matchGaps p (ch :: rest) =
      match matchGaps p rest with
      | [] => []
      | g :: gs => (g + 1) :: gs := by
  rw [matchGaps]
  rw [if_neg hm]

theorem re_sub_render_aux :
    ∀ (n : Nat) (p pref : List Char) (c : Nat) (t : List Char),
      t.length ≤ n → p ≠ [] →
      re_sub p pref c t =
        (render p pref c t (matchGaps p t), c + (matchGaps p t).length) := by
  intro n
  induction n with
  | zero =>
    intro p pref c t ht hp
    have h0 : t = [] := List.eq_nil_of_length_eq_zero (Nat.le_zero.mp ht)
    subst h0
    rw [re_sub_nil p pref c hp, matchGaps_nil]
    simp [render]
  | succ m ih =>
    intro p pref c t ht hp
    match t with
    | [] =>
      rw [re_sub_nil p pref c hp, matchGaps_nil]
      simp [render]
    | ch :: rest =>
      have hrest : rest.length ≤ m := by
        simp only [List.length_cons] at ht; omega
      by_cases hm : ciStartsWith p (ch :: rest)
      · have hdrop : (List.drop (p.length - 1) rest).length ≤ m := by
          simp only [List.length_drop]; omega
        rw [re_sub_match p pref c ch rest hp hm,
          matchGaps_match p ch rest hp hm,
          ih _ _ _ _ hdrop hp]
        obtain ⟨q, qs, rfl⟩ : ∃ q qs, p = q :: qs := by
          cases p with
          | nil => exact absurd rfl hp
          | cons q qs => exact ⟨q, qs, rfl⟩
        simp only [render, List.take_zero, List.nil_append, Nat.zero_add,
          List.length_cons, Nat.add_sub_cancel, List.drop_succ_cons,
          List.length]
        rw [Prod.mk.injEq]
        exact ⟨rfl, by omega⟩
      · rw [re_sub_skip p pref c ch rest hp hm,
          matchGaps_skip p ch rest hm,
          ih _ _ _ _ hrest hp]
        cases hG : matchGaps p rest with
        | nil => simp [render]
        | cons g gs =>
          simp only [render]
          have h1 : g + 1 + p.length = (g + p.length) + 1 := by omega
          simp only [List.take_succ_cons, List.drop_succ_cons, h1,
            List.cons_append, List.length_cons]

theorem render_seg :
    ∀ (gs : List Nat) (p pref : List Char) (c : Nat) (t : List Char)
      (k : Nat), k < gs.length →
      containsSeg (pref ++ decimalStr (c + k)) (render p pref c t gs) := by
  intro gs
  induction gs with
  | nil => intro p pref c t k hk; exact absurd hk (by simp)
  | cons g gs ih =>
    intro p pref c t k hk
    match k with
    | 0 =>
      refine ⟨t.take g, render p pref (c + 1) (t.drop (g + p.length)) gs, ?_⟩
      simp [render, List.append_assoc]
    | k + 1 =>
      have hk2 : k < gs.length := by simp at hk; omega
      obtain ⟨l, r, hlr⟩ :=
        ih p pref (c + 1) (t.drop (g + p.length)) k hk2
      refine ⟨t.take g ++ pref ++ decimalStr c ++ l, r, ?_⟩
      have hc : c + 1 + k = c + (k + 1) := by omega
      rw [render, ← hc, hlr]
      simp [List.append_assoc]

theorem matchGaps_ci_aux :
    ∀ (n : Nat) (p1 p2 t1 t2 : List Char),
      t1.length ≤ n →
      p1.map toLowerAscii = p2.map toLowerAscii →
      t1.map toLowerAscii = t2.map toLowerAscii →
      matchGaps p1 t1 = matchGaps p2 t2 := by
  intro n
  induction n with
  | zero =>
    intro p1 p2 t1 t2 ht hp htt
    have h0 : t1 = [] := List.eq_nil_of_length_eq_zero (Nat.le_zero.mp ht)
    subst h0
    have h2 : t2 = [] := by
      cases t2 with
      | nil => rfl
      | cons b r => simp at htt
    subst h2
    rw [matchGaps_nil, matchGaps_nil]
  | succ m ih =>
    intro p1 p2 t1 t2 ht hp htt
    have hplen : p1.length = p2.length := by
      have := congrArg List.length hp
      simpa using this
    match t1, t2 with
    | [], [] => rw [matchGaps_nil, matchGaps_nil]
    | [], b :: r2 => simp at htt
    | a :: r1, [] => simp at htt
    | a :: r1, b :: r2 =>
      have hr : r1.map toLowerAscii = r2.map toLowerAscii := by
        simp only [List.map_cons, List.cons.injEq] at htt
        exact htt.2
      have hrlen : r1.length ≤ m := by
        simp only [List.length_cons] at ht; omega
      have hci : ciStartsWith p1 (a :: r1) = ciStartsWith p2 (b :: r2) := by
        unfold ciStartsWith
        rw [hp, htt]
      have hne : (p1 ≠ []) = (p2 ≠ []) := by
        cases p1 with
        | nil =>
          cases p2 with
          | nil => rfl
          | cons q qs => simp at hplen
        | cons q qs =>
          cases p2 with
          | nil => simp at hplen
          | cons w ws => simp
      by_cases hm : p1 ≠ [] ∧ ciStartsWith p1 (a :: r1)
      · have hm2 : p2 ≠ [] ∧ ciStartsWith p2 (b :: r2) := by
          rw [← hne, ← hci]; exact hm
        rw [matchGaps_match p1 a r1 hm.1 hm.2,
          matchGaps_match p2 b r2 hm2.1 hm2.2]
        have hdroplen : (List.drop (p1.length - 1) r1).length ≤ m := by
          simp only [List.length_drop]; omega
        have hdropmap :
            (List.drop (p1.length - 1) r1).map toLowerAscii =
              (List.drop (p2.length - 1) r2).map toLowerAscii := by
          rw [List.map_drop, List.map_drop, hr, hplen]
        rw [ih p1 p2 _ _ hdroplen hp hdropmap]
      · have hm2 : ¬ (p2 ≠ [] ∧ ciStartsWith p2 (b :: r2)) := by
          rw [← hne, ← hci]; exact hm
        rw [matchGaps_else p1 a r1 hm, ih p1 p2 r1 r2 hrlen hp hr,
          matchGaps_else p2 b r2 hm2]

theorem coreRun_write_or_id (env : Env) (fs : String → Option (List Nat))
    (input_file output_file column_name_pattern columnPref encoding :
      String) :
    (coreRun env fs input_file output_file column_name_pattern columnPref
      encoding).fs = fs ∨
    (coreRun env fs input_file output_file column_name_pattern columnPref
      encoding).err = none ∨
    (coreRun env fs input_file output_file column_name_pattern columnPref
      encoding).err = some Err.encodeFailed := by
  unfold coreRun
  split
  · exact Or.inl rfl
  · split
    · exact Or.inl rfl
    · split
      · exact Or.inl rfl
      · split
        · exact Or.inl rfl
        · split
          · split
            · exact Or.inr (Or.inl rfl)
            · exact Or.inr (Or.inr rfl)
          · exact Or.inl rfl

theorem anonymize_exit_aux (env : Env) (fs : String → Option (List Nat))
    (input_file output_file column_name_pattern columnPref encoding :
      String) :
    (anonymize_table_definition env fs input_file output_file
      column_name_pattern columnPref encoding).exitCode =
    (match (coreRun env fs input_file output_file column_name_pattern
        columnPref encoding).err with
      | none => 0
      | some _ => 1) := by
  unfold anonymize_table_definition
  cases h : (coreRun env fs input_file output_file column_name_pattern
      columnPref encoding).err <;> simp [h]

/-- Claim C1: for every nonempty literal pattern, prefix and input text, the
substitution pass produces exactly the rendering in which the kth match of
the left-to-right non-overlapping scan (`matchGaps`) is replaced by the
prefix concatenated with the decimal string of k, with k starting at 1,
and all non-matched text (the gap segments) copied unchanged; moreover the
final counter equals 1 plus the number of matches, so the counter is
incremented exactly once per match regardless of match content or length. -/
theorem claim_C1 (p columnPref t : List Char) (hp : p ≠ []) :
    re_sub p columnPref 1 t =
      (render p columnPref 1 t (matchGaps p t),
       1 + (matchGaps p t).length) :=
  re_sub_render_aux t.length p columnPref 1 t (Nat.le_refl _) hp

theorem claim_C1_witness :
    (['a'] : List Char) ≠ [] ∧
    re_sub ['a'] ['c'] 1 ['x', 'a', 'b'] =
      (render ['a'] ['c'] 1 ['x', 'a', 'b'] (matchGaps ['a'] ['x', 'a', 'b']),
       1 + (matchGaps ['a'] ['x', 'a', 'b']).length) ∧
    re_sub ['a'] ['c'] 1 ['x', 'a', 'b'] = (['x', 'c', '1', 'b'], 2) :=
  ⟨by decide, claim_C1 ['a'] ['c'] ['x', 'a', 'b'] (by decide),
    by simp [re_sub, ciStartsWith, toLowerAscii, replace_column_name,
      decimalStr, Nat.toDigits, Nat.toDigitsCore, Nat.digitChar,
      List.isPrefixOf]⟩

/-- Claim C2: if the (nonempty literal) pattern matches zero times in the
input text — the match scan yields no matches — the substitution pass
returns the input text unchanged and the counter is never incremented.  No
error is possible: `re_sub` is a total function. -/
theorem claim_C2 (p columnPref t : List Char) (c : Nat) (hp : p ≠ [])
    (h0 : matchGaps p t = []) :
    re_sub p columnPref c t = (t, c) := by
  rw [re_sub_render_aux t.length p columnPref c t (Nat.le_refl _) hp, h0]
  simp [render]

theorem claim_C2_witness :
    matchGaps ['z'] ['a', 'b'] = [] ∧
    re_sub ['z'] ['c'] 1 ['a', 'b'] = (['a', 'b'], 1) :=
  ⟨by simp [matchGaps, ciStartsWith, toLowerAscii, List.isPrefixOf],
   claim_C2 ['z'] ['c'] ['a', 'b'] 1 (by decide)
     (by simp [matchGaps, ciStartsWith, toLowerAscii, List.isPrefixOf])⟩

/-- Claim C3: every failure of the `try` body is caught at the orchestration
boundary of `anonymize_table_definition`, a log message identifying its
category (`errLog`) is emitted, and the run exits with status 1; a
successful run exits with status 0.  No other exit codes occur: the result
is always one of these two cases. -/
theorem claim_C3 (env : Env) (fs : String → Option (List Nat))
    (input_file output_file column_name_pattern columnPref encoding :
      String) :
    ((coreRun env fs input_file output_file column_name_pattern columnPref
        encoding).err = none ∧
      (anonymize_table_definition env fs input_file output_file
        column_name_pattern columnPref encoding).exitCode = 0) ∨
    (∃ e, (coreRun env fs input_file output_file column_name_pattern
        columnPref encoding).err = some e ∧
      (anonymize_table_definition env fs input_file output_file
        column_name_pattern columnPref encoding).exitCode = 1 ∧
      errLog input_file e ∈ (anonymize_table_definition env fs input_file
        output_file column_name_pattern columnPref encoding).logs) := by
  unfold anonymize_table_definition
  cases h : (coreRun env fs input_file output_file column_name_pattern
      columnPref encoding).err with
  | none => left; simp [h]
  | some e => right; exact ⟨e, rfl, by simp [h], by simp [h]⟩

/-- Claim C4: a run that fails before the substituted text has been fully
produced — missing input file, encoding-detection failure, unknown
encoding (read failure), or invalid pattern — leaves the file store
entirely unchanged: the output file is neither created nor modified,
because the output file is opened for writing only after substitution has
succeeded. -/
theorem claim_C4 (env : Env) (fs : String → Option (List Nat))
    (input_file output_file column_name_pattern columnPref encoding : String)
    (e : Err)
    (he : e = Err.fileNotFound ∨ e = Err.detectFailed ∨
      e = Err.unknownEncoding ∨ e = Err.badPattern)
    (h : (coreRun env fs input_file output_file column_name_pattern
        columnPref encoding).err = some e) :
    (coreRun env fs input_file output_file column_name_pattern columnPref
      encoding).fs = fs := by
  rcases coreRun_write_or_id env fs input_file output_file
    column_name_pattern columnPref encoding with hf | hn | hw
  · exact hf
  · rw [h] at hn; cases hn
  · rw [h] at hw
    rcases he with rfl | rfl | rfl | rfl <;> simp at hw

theorem claim_C4_witness :
    (coreRun sampleEnv emptyFs "in.sql" "out.sql" "p" "c" "utf-8").fs =
      emptyFs :=
  claim_C4 sampleEnv emptyFs "in.sql" "out.sql" "p" "c" "utf-8"
    Err.fileNotFound (Or.inl rfl) rfl

/-- Claim C5: when the encoding selector lower-cases to the auto-detect
sentinel and the input file exists, the detection heuristic runs over the
file's raw bytes; if it yields no usable encoding (`none`) the run fails
with `detectFailed` (the `ValueError` of line 68) and exits with status 1,
and otherwise the detected encoding is logged and becomes the resolved
encoding, which `coreRun` threads into both the read (decode) and the
write (encode) steps. -/
theorem claim_C5 (env : Env) (fs : String → Option (List Nat))
    (input_file output_file column_name_pattern columnPref encoding : String)
    (bs : List Nat)
    (ha : strToLower encoding = "auto") (hf : fs input_file = some bs) :
    (env.detect bs = none →
      (coreRun env fs input_file output_file column_name_pattern columnPref
        encoding).err = some Err.detectFailed ∧
      (anonymize_table_definition env fs input_file output_file
        column_name_pattern columnPref encoding).exitCode = 1) ∧
    (∀ e, env.detect bs = some e →
      (coreRun env fs input_file output_file column_name_pattern columnPref
        encoding).resolved = some e ∧
      LogMsg.detectedEncoding (some e) ∈
        (coreRun env fs input_file output_file column_name_pattern columnPref
          encoding).logs) := by
  constructor
  · intro hd
    have herr : (coreRun env fs input_file output_file column_name_pattern
        columnPref encoding).err = some Err.detectFailed := by
      simp only [coreRun, resolveEncoding, ha, reduceIte, hf, hd]
    refine ⟨herr, ?_⟩
    rw [anonymize_exit_aux env fs input_file output_file column_name_pattern
      columnPref encoding, herr]
  · intro e hd
    constructor
    · simp only [coreRun, resolveEncoding, ha, reduceIte, hf, hd]
      split
      · rfl
      · split
        · rfl
        · split
          · split
            · rfl
            · rfl
          · rfl
    · simp only [coreRun, resolveEncoding, ha, reduceIte, hf, hd]
      split
      · simp
      · split
        · simp
        · split
          · split
            · simp
            · simp
          · simp

theorem claim_C5_witness :
    (coreRun sampleEnv sampleFs "in.sql" "out.sql" "p" "c" "AUTO").resolved =
      some "latin-1" ∧
    LogMsg.detectedEncoding (some "latin-1") ∈
      (coreRun sampleEnv sampleFs "in.sql" "out.sql" "p" "c" "AUTO").logs :=
  (claim_C5 sampleEnv sampleFs "in.sql" "out.sql" "p" "c" "AUTO"
    [97, 98] (by decide) rfl).2 "latin-1" rfl

/-- Claim C6: matching is case-insensitive unconditionally: the match scan
depends only on the ASCII-lower-cased pattern and text, so a pattern
matches two texts that differ only in letter case (such as `NAME`, `Name`,
`nAmE` for the pattern `name`) at identical positions, and the embedded
substitution pass (which hard-codes `re.IGNORECASE`) offers no option to
disable this. -/
theorem claim_C6 (p1 p2 t1 t2 : List Char)
    (hp : p1.map toLowerAscii = p2.map toLowerAscii)
    (ht : t1.map toLowerAscii = t2.map toLowerAscii) :
    matchGaps p1 t1 = matchGaps p2 t2 :=
  matchGaps_ci_aux t1.length p1 p2 t1 t2 (Nat.le_refl _) hp ht

theorem claim_C6_witness :
    matchGaps ['n', 'a', 'm', 'e'] ['x', 'N', 'A', 'M', 'E'] =
      matchGaps ['N', 'A', 'M', 'E'] ['x', 'n', 'a', 'm', 'e'] ∧
    matchGaps ['n', 'a', 'm', 'e'] ['x', 'N', 'A', 'M', 'E'] = [1] :=
  ⟨claim_C6 ['n', 'a', 'm', 'e'] ['N', 'A', 'M', 'E']
      ['x', 'N', 'A', 'M', 'E'] ['x', 'n', 'a', 'm', 'e']
      (by decide) (by decide),
   by simp [matchGaps, ciStartsWith, toLowerAscii, List.isPrefixOf]⟩

/-- Claim C7: reading the input file never fails due to decode errors: once
the encoding is resolved to a known codec and the file exists, the read
step completes for every byte content whatsoever, producing exactly the
lossy decode in which each undecodable byte is the replacement character
(`decodeReplace`), and the only errors the run can still produce arise in
the write stage. -/
theorem claim_C7 (env : Env) (fs : String → Option (List Nat))
    (input_file output_file column_name_pattern columnPref encoding r :
      String) (bs : List Nat) (c : Codec) (p : List Char)
    (hr : (resolveEncoding env fs input_file encoding).enc = Except.ok r)
    (hf : fs input_file = some bs)
    (hc : env.codecs r = some c)
    (hp : env.compile column_name_pattern = some p) :
    (coreRun env fs input_file output_file column_name_pattern columnPref
      encoding).textRead = some (decodeReplace c bs) ∧
    ((coreRun env fs input_file output_file column_name_pattern columnPref
        encoding).err = none ∨
     (coreRun env fs input_file output_file column_name_pattern columnPref
        encoding).err = some Err.writeDenied ∨
     (coreRun env fs input_file output_file column_name_pattern columnPref
        encoding).err = some Err.encodeFailed) := by
  rcases hres : resolveEncoding env fs input_file encoding with ⟨renc, rlogs⟩
  rw [hres] at hr
  dsimp at hr
  subst hr
  simp only [coreRun, hres, hf, hc, hp]
  split
  · split
    · exact ⟨rfl, Or.inl rfl⟩
    · exact ⟨rfl, Or.inr (Or.inr rfl)⟩
  · exact ⟨rfl, Or.inr (Or.inl rfl)⟩

theorem claim_C7_witness :
    (coreRun sampleEnv sampleFs2 "in.sql" "out.sql" "p" "c" "utf-8").textRead
      = some (decodeReplace asciiCodec [97, 200]) ∧
    ((coreRun sampleEnv sampleFs2 "in.sql" "out.sql" "p" "c" "utf-8").err
        = none ∨
     (coreRun sampleEnv sampleFs2 "in.sql" "out.sql" "p" "c" "utf-8").err
        = some Err.writeDenied ∨
     (coreRun sampleEnv sampleFs2 "in.sql" "out.sql" "p" "c" "utf-8").err
        = some Err.encodeFailed) :=
  claim_C7 sampleEnv sampleFs2 "in.sql" "out.sql" "p" "c" "utf-8"
    "utf-8" [97, 200] asciiCodec ['p'] rfl rfl rfl rfl

/-- Claim C8: the substitution pass is not idempotent in general: for the
pattern `a` and prefix `a`, applying the pass to its own output on the
input `a` produces `a11`, which differs from the first output `a1`
(the generated generic name itself matches the pattern again). -/
theorem claim_C8 :
    (re_sub ['a'] ['a'] 1 ((re_sub ['a'] ['a'] 1 ['a']).1)).1 ≠
      (re_sub ['a'] ['a'] 1 ['a']).1 := by
  simp [re_sub, ciStartsWith, toLowerAscii, replace_column_name, decimalStr,
    Nat.toDigits, Nat.toDigitsCore, Nat.digitChar, List.isPrefixOf]

/-- Claim C9: the auto-detect sentinel is recognized case-insensitively
(line 61 applies `.lower()` before comparing with `auto`): any encoding
argument whose lower-casing is `auto` makes the run behave exactly as the
argument `auto` does, and any other value is passed through as the
resolved encoding handed to the codec registry. -/
theorem claim_C9 (env : Env) (fs : String → Option (List Nat))
    (input_file output_file column_name_pattern columnPref encoding :
      String) :
    (strToLower encoding = "auto" →
      coreRun env fs input_file output_file column_name_pattern columnPref
        encoding =
      coreRun env fs input_file output_file column_name_pattern columnPref
        "auto") ∧
    (¬ strToLower encoding = "auto" →
      (coreRun env fs input_file output_file column_name_pattern columnPref
        encoding).resolved = some encoding) := by
  constructor
  · intro h
    have h2 : strToLower "auto" = "auto" := by decide
    unfold coreRun resolveEncoding
    rw [h, h2]
    simp only [reduceIte]
  · intro h
    unfold coreRun resolveEncoding
    rw [if_neg h]
    split
    · rename_i heq
      cases heq
    · rename_i rEnc logs heq
      cases heq
      split
      · rfl
      · split
        · rfl
        · split
          · rfl
          · split
            · split
              · rfl
              · rfl
            · rfl

theorem claim_C9_witness :
    coreRun sampleEnv sampleFs "in.sql" "out.sql" "p" "c" "AUTO" =
      coreRun sampleEnv sampleFs "in.sql" "out.sql" "p" "c" "auto" :=
  (claim_C9 sampleEnv sampleFs "in.sql" "out.sql" "p" "c" "AUTO").1
    (by decide)

/-- Claim C10: because the replacement is built by the callback rather than
interpreted as a template, the prefix is inserted into the output verbatim
for every prefix value: for each match index k of the scan, the output of
the substitution pass contains the literal segment
`columnPref ++ decimalStr (k + 1)`, whatever characters (including
backslash sequences such as `\1`) the prefix holds. -/
theorem claim_C10 (p columnPref t : List Char) (k : Nat) (hp : p ≠ [])
    (hk : k < (matchGaps p t).length) :
    containsSeg (columnPref ++ decimalStr (k + 1))
      ((re_sub p columnPref 1 t).1) := by
  have h := re_sub_render_aux t.length p columnPref 1 t (Nat.le_refl _) hp
  rw [h]
  have h2 := render_seg (matchGaps p t) p columnPref 1 t k hk
  have h3 : 1 + k = k + 1 := by omega
  rw [h3] at h2
  exact h2

theorem claim_C10_witness :
    containsSeg (['\\', '1'] ++ decimalStr 1)
      ((re_sub ['a'] ['\\', '1'] 1 ['a']).1) :=
  claim_C10 ['a'] ['\\', '1'] ['a'] 0 (by decide)
    (by simp [matchGaps, ciStartsWith, toLowerAscii, List.isPrefixOf])
